import Mathlib

/-!
Verification of `scripts/fetch_glucose.py` (LibreLinkUp → Firestore glucose
fetcher) against its design specification.

Shallow embedding conventions:
* Python `int` values are Lean `Int`; machine overflow does not arise (Python
  ints are unbounded).  Fractional `float` inputs are outside the embedding;
  a numeric value is carried as the `Int` it contributes after `int(...)`.
* Python stdlib parsing/timezone routines the script calls
  (`datetime.fromisoformat`, `float`, `int`, `ZoneInfo`, timezone
  arithmetic) are not code of this repository; they are abstracted into the
  oracle structure `Std` and the `DT` datetime model, and theorems quantify
  over them.
* `sys.exit(1)` and raised exceptions are modelled with `Except.error`.
* CPython `dict` preserves insertion order and updates keys in place; the
  `by_min` dict is modelled as an insertion-ordered association list.
-/

namespace FetchGlucose

/-- ASCII whitespace recognised by Python string `strip`. -/
def isPyWs (c : Char) : Bool :=
  c = ' ' || c = '\t' || c = '\n' || c = '\r' || c = '\x0b' || c = '\x0c'

/-- Python `s.strip()` on ASCII whitespace. -/
def pyStrip (s : String) : String :=
  ⟨((s.data.dropWhile isPyWs).reverse.dropWhile isPyWs).reverse⟩

/-- Python `s.upper()` (ASCII letters; the script only compares against "HI"). -/
def pyUpper (s : String) : String :=
  ⟨s.data.map Char.toUpper⟩

/-- Character-list worker for `s.replace("Z", "+00:00")`. -/
def replZChars : List Char → List Char
  | [] => []
  | c :: rest =>
    if c = 'Z' then '+' :: '0' :: '0' :: ':' :: '0' :: '0' :: replZChars rest
    else c :: replZChars rest

/-- Python `s.replace("Z", "+00:00")` as used on candidate ISO strings. -/
def pyReplaceZ (s : String) : String := ⟨replZChars s.data⟩

/-- Model of a Python `datetime` object as the script observes one: whether it
is timezone-naive, its epoch milliseconds when aware
(`int(dt.astimezone(timezone.utc).timestamp() * 1000)`), and, when naive, the
epoch milliseconds obtained after `dt.replace(tzinfo=tz)` — `withTz (some z)`
for `tz = ZoneInfo z`, `withTz none` for `tz = timezone.utc`.  The wall-clock /
timezone arithmetic itself is Python stdlib and stays abstract. -/
structure DT where
  naive : Bool
  utcMs : Int
  withTz : Option String → Int

/-- A Python value in a measurement field.  `num` is an `int` (a numeric value
is carried as the `Int` it contributes); `obj` is any other object —
unsupported as a timestamp, and one on which `int(...)` raises. -/
inductive PyVal where
  | num (v : Int)
  | str (s : String)
  | dt (d : DT)
  | obj

/-- Python truthiness of a field value (`0`, `""` and `None` are falsy;
`datetime` and generic objects are truthy). -/
def pyTruthy : PyVal → Bool
  | .num v => v ≠ 0
  | .str s => s ≠ ""
  | .dt _ => true
  | .obj => true

/-- Truthiness with `Option.none` standing for Python `None` (also what
`.get` / `getattr` return for an absent field). -/
def pyTruthyO : Option PyVal → Bool
  | none => false
  | some v => pyTruthy v

/-- Python `a or b`: `a` if truthy, else `b` (the last operand, even when
falsy). -/
def pyOr (a b : Option PyVal) : Option PyVal :=
  if pyTruthyO a then a else b

/-- A raw measurement record from the vendor SDK.  `dict` carries the entries
the script reads with `.get`; `obj` carries the attributes it reads with
`getattr` (the `time` / `date` attributes exist on such objects but the
object branch of the script never reads them).  `Option.none` covers both an
absent field and an explicit `None`. -/
inductive PyMeas where
  | dict (timestamp time date value isHi is_hi : Option PyVal)
  | obj (timestamp time date value isHi is_hi : Option PyVal)

/-- Semantics of the Python stdlib parsers the script calls, taken as an
oracle: `fromiso s` models `datetime.fromisoformat s` (`none` = raises);
`floatMs s` models `int(datetime.fromtimestamp(float(s), timezone.utc)
.timestamp() * 1000)` (`none` = `float(s)` raises); `zoneInfoOk z` is whether
`ZoneInfo z` succeeds; `strToNum s` models `int(float(s))` (`none` = raises);
`strToInt s` models `int(s)` (`none` = raises `ValueError`). -/
structure Std where
  fromiso : String → Option DT
  floatMs : String → Option Int
  zoneInfoOk : String → Bool
  strToNum : String → Option Int
  strToInt : String → Option Int

/-- Model of `get_env`: read a required environment variable, strip it, and on an
absent or blank value print an error naming the variable and `sys.exit(1)` —
modelled as `Except.error (exit code, printed message)`. -/
def get_env (env : String → Option String) (name : String) :
    Except (Nat × String) String :=
  let val := pyStrip ((env name).getD "")
  if val = "" then
    .error (1, "ERROR: 環境変数 " ++ name ++ " が設定されていません")
  else .ok val

/-- Model of `get_env_opt`: optional environment variable with a default. -/
def get_env_opt (env : String → Option String) (name dflt : String) : String :=
  let v := pyStrip ((env name).getD "")
  if v = "" then dflt else v

/-- Model of `_get_timestamp`: dicts chain `.get("timestamp") or .get("time") or
.get("date")`; objects read only `getattr(meas, "timestamp", None)`. -/
def _get_timestamp : PyMeas → Option PyVal
  | .dict timestamp time date _ _ _ => pyOr timestamp (pyOr time date)
  | .obj timestamp _ _ _ _ _ => timestamp

/-- The raw value field of a record (`meas.get("value")` /
`getattr(meas, "value", None)`). -/
def valueField : PyMeas → Option PyVal
  | .dict _ _ _ value _ _ => value
  | .obj _ _ _ value _ _ => value

/-- The combined high flag, `bool(isHi or is_hi)` over the record's
`isHi` / `is_hi` fields. -/
def hiFlags : PyMeas → Bool
  | .dict _ _ _ _ isHi is_hi => pyTruthyO isHi || pyTruthyO is_hi
  | .obj _ _ _ _ isHi is_hi => pyTruthyO isHi || pyTruthyO is_hi

/-- Model of `_norm_value`: value / isHi extraction with the `"HI"` sentinel, the
string-to-number fallback (`int(float(v))`, 0 on failure), `int(v)` with 0 on
failure for non-strings, and the ≥ 500 clamp on the non-string path. -/
def _norm_value (std : Std) (m : PyMeas) : Int × Bool :=
  let v : Option PyVal := valueField m
  let hi : Bool := hiFlags m
  match v with
  | some (.str s) =>
    if pyUpper (pyStrip s) = "HI" then (500, true)
    else
      match std.strToNum s with
      | some n => (n, hi)
      | none => (0, hi)
  | some (.num n) => if 500 ≤ n then (500, true) else (n, hi)
  | _ => (0, hi)

/-- Epoch-ms of a datetime: a naive one first gets `ZoneInfo assume_tz`
attached (falling back to `timezone.utc` when `ZoneInfo` raises), an aware
one converts directly. -/
def dtEpochMs (std : Std) (assume_tz : String) (d : DT) : Int :=
  if d.naive then
    d.withTz (if std.zoneInfoOk assume_tz then some assume_tz else none)
  else d.utcMs

/-- Model of `_dt_to_epoch_ms`: numbers are epoch seconds or milliseconds split at
`10^12`; strings try ISO-8601 (after `Z` → `+00:00`) then a raw epoch-seconds
float, raising when both fail; datetimes convert via `dtEpochMs`; any other
type raises `TypeError`.  A raised exception is `Except.error`. -/
def _dt_to_epoch_ms (std : Std) (dt : PyVal) (assume_tz : String) :
    Except String Int :=
  match dt with
  | .num v => .ok (if 10 ^ 12 < v then v else v * 1000)
  | .str s =>
    match std.fromiso (pyReplaceZ s) with
    | some parsed => .ok (dtEpochMs std assume_tz parsed)
    | none =>
      match std.floatMs s with
      | some ms => .ok ms
      | none => .error ("could not convert string to timestamp: " ++ s)
  | .dt d => .ok (dtEpochMs std assume_tz d)
  | .obj => .error "Unsupported timestamp type"

/-- A canonical measurement as staged in `all_measurements` (the `source` tag
is popped again before `fetch_glucose_data` returns). -/
structure AllMeas where
  timestamp : Int
  value : Int
  isHi : Bool
  source : String
deriving DecidableEq

/-- A canonical measurement as returned by `fetch_glucose_data`. -/
structure Meas where
  timestamp : Int
  value : Int
  isHi : Bool
deriving DecidableEq

/-- Minute bucket: Python floor division `timestamp // 60000`. -/
def bucket (t : Int) : Int := t.fdiv 60000

/-- One feed's pass of the `all_measurements` collection loop: a record whose
timestamp lookup yields `None` is skipped silently; a timestamp-conversion
exception propagates and aborts. -/
def normFeed (std : Std) (assume_tz : String) (src : String) :
    List PyMeas → Except String (List AllMeas)
  | [] => .ok []
  | m :: rest =>
    match _get_timestamp m with
    | none => normFeed std assume_tz src rest
    | some ts_raw =>
      match _dt_to_epoch_ms std ts_raw assume_tz with
      | .error e => .error e
      | .ok ts_ms =>
        match normFeed std assume_tz src rest with
        | .error e => .error e
        | .ok tail =>
          .ok ({ timestamp := ts_ms, value := (_norm_value std m).1,
                 isHi := (_norm_value std m).2, source := src } :: tail)

/-- Insertion-ordered key update for the `by_min` dict: an existing key is
overwritten in place, a new key is appended (CPython dict semantics). -/
def upsert (l : List (Int × AllMeas)) (k : Int) (m : AllMeas) :
    List (Int × AllMeas) :=
  match l with
  | [] => [(k, m)]
  | (k0, m0) :: rest =>
    if k0 = k then (k, m) :: rest else (k0, m0) :: upsert rest k m

/-- Loop body of the `by_min` construction: `by_min[k] = m` for
`k = m["timestamp"] // 60000`. -/
def byMinStep (acc : List (Int × AllMeas)) (m : AllMeas) :
    List (Int × AllMeas) :=
  upsert acc (bucket m.timestamp) m

/-- The `by_min` dict built by inserting every measurement keyed by its minute
bucket; later insertions overwrite earlier ones. -/
def by_min (ms : List AllMeas) : List (Int × AllMeas) :=
  ms.foldl byMinStep []

/-- Dropping the `source` tag (`m.pop("source", None)`). -/
def dropSource (m : AllMeas) : Meas := ⟨m.timestamp, m.value, m.isHi⟩

/-- Ordering of measurements by timestamp, the key of `unique.sort`. -/
def tsLe (a b : AllMeas) : Prop := a.timestamp ≤ b.timestamp

instance : DecidableRel tsLe := fun a b => Int.decLe a.timestamp b.timestamp

/-- The deduplicate-and-sort stage of `fetch_glucose_data`: dict values,
sorted ascending by timestamp, `source` popped.  Python's `list.sort` is a
stable sort keyed by timestamp; it is modelled by a stable insertion sort,
which produces the identical sequence. -/
def dedup (ms : List AllMeas) : List Meas :=
  (List.insertionSort tsLe ((by_min ms).map Prod.snd)).map dropSource

/-- Normalization + deduplication pipeline of `fetch_glucose_data`: graph feed
records are inserted before logbook records. -/
def fetchCore (std : Std) (assume_tz : String) (graph logbook : List PyMeas) :
    Except String (List Meas) :=
  match normFeed std assume_tz "graph" graph with
  | .error e => .error e
  | .ok g =>
    match normFeed std assume_tz "logbook" logbook with
    | .error e => .error e
    | .ok lb => .ok (dedup (g ++ lb))

/-- Authentication failure as surfaced by the SDK's `authenticate()`:
a redirect to a different regional endpoint, or any other error. -/
inductive AuthError where
  | regionMismatch
  | other (msg : String)
deriving DecidableEq

/-- Fatal outcomes of a run of `fetch_glucose_data`. -/
inductive RunError where
  | envExit (code : Nat) (msg : String)
  | authFailed (e : AuthError)
  | noPatients
  | noPatientId
  | tsError (msg : String)
deriving DecidableEq

/-- A patient/connection record; `pid` is the identifier
`_extract_patient_id` resolves from its fields or string form
(`none` = unresolvable). -/
structure Patient where
  pid : Option String

/-- Model of `_pick_patient`: empty list raises; an explicit `LIBRELINK_PATIENT_ID`
is used as-is; otherwise `LIBRELINK_PATIENT_INDEX` (`int` parse failure → 0)
clamped into range selects the patient, whose id must resolve. -/
def _pick_patient (std : Std) (env : String → Option String)
    (patients : List Patient) : Except RunError (Patient × String) :=
  match patients with
  | [] => .error .noPatients
  | p0 :: rest =>
    let forced := get_env_opt env "LIBRELINK_PATIENT_ID" ""
    if forced ≠ "" then .ok (p0, forced)
    else
      let idx_s := get_env_opt env "LIBRELINK_PATIENT_INDEX" "0"
      let idx := (std.strToInt idx_s).getD 0
      let idx2 := max 0 (min idx ((p0 :: rest).length - 1))
      let patient := (p0 :: rest).getD idx2.toNat p0
      match patient.pid with
      | none => .error .noPatientId
      | some pid => .ok (patient, pid)

/-- Model of `fetch_glucose_data`: required credentials, a single bare
`api.authenticate()` call — `auth k` is the outcome the SDK would return to
the k-th call — patient selection, then the two feeds through normalization
and deduplication.  The `api_url` assignment and the two feed fetches are SDK
interactions; the fetched feeds are inputs here. -/
def fetch_glucose_data (env : String → Option String) (std : Std)
    (auth : Nat → Except AuthError Unit)
    (patients : List Patient) (graph logbook : List PyMeas) :
    Except RunError (List Meas) :=
  match get_env env "LIBRELINK_EMAIL" with
  | .error em => .error (.envExit em.1 em.2)
  | .ok _ =>
    match get_env env "LIBRELINK_PASSWORD" with
    | .error em => .error (.envExit em.1 em.2)
    | .ok _ =>
      match auth 0 with
      | .error e => .error (.authFailed e)
      | .ok _ =>
        match _pick_patient std env patients with
        | .error e => .error e
        | .ok _ =>
          let assume_tz := get_env_opt env "LIBRELINK_ASSUME_TZ" "Asia/Tokyo"
          match fetchCore std assume_tz graph logbook with
          | .error e => .error (.tsError e)
          | .ok unique => .ok unique

/-- A persisted document as the writer reads it back: only the `timestamp`
field (possibly absent or `None`) is consulted. -/
structure StoredDoc where
  timestamp : Option Int
deriving DecidableEq

/-- Minute buckets of the stored documents the range query
`timestamp >= min_ts AND timestamp <= max_ts` returns. -/
def existingMinutes (store : List StoredDoc) (min_ts max_ts : Int) : List Int :=
  ((store.filter (fun d =>
      match d.timestamp with
      | some t => decide (min_ts ≤ t) && decide (t ≤ max_ts)
      | none => false)).filterMap (fun d => d.timestamp)).map bucket

/-- Loop state of `write_to_firebase`: records written, current batch fill,
sizes of the commits issued so far, and the documents committed. -/
structure WriteState where
  added : Nat
  batch_count : Nat
  commits : List Nat
  newDocs : List StoredDoc
deriving DecidableEq

/-- One iteration of the write loop: a measurement whose minute bucket
already exists is skipped; otherwise it is staged, and a batch reaching 450
is committed. -/
def writeStep (existing_minutes : List Int) (st : WriteState) (m : Meas) :
    WriteState :=
  if bucket m.timestamp ∈ existing_minutes then st
  else
    let bc := st.batch_count + 1
    let docs := st.newDocs ++ [⟨some m.timestamp⟩]
    if 450 ≤ bc then ⟨st.added + 1, 0, st.commits ++ [bc], docs⟩
    else ⟨st.added + 1, bc, st.commits, docs⟩

/-- Result of `write_to_firebase`: the store afterwards, the returned count
of records written, and the sizes of the batch commits issued. -/
structure WriteResult where
  store : List StoredDoc
  added : Nat
  commits : List Nat
deriving DecidableEq

/-- Model of `write_to_firebase`: empty input writes nothing; otherwise existing
minute buckets in `[measurements[0].timestamp, measurements[-1].timestamp]`
are collected, new-bucket records are staged and committed in batches of 450,
and a trailing non-empty batch is flushed. -/
def write_to_firebase (store : List StoredDoc) (measurements : List Meas) :
    WriteResult :=
  match measurements with
  | [] => ⟨store, 0, []⟩
  | m0 :: rest =>
    let min_ts := m0.timestamp
    let max_ts := ((m0 :: rest).getLast (List.cons_ne_nil m0 rest)).timestamp
    let minutes := existingMinutes store min_ts max_ts
    let st := (m0 :: rest).foldl (writeStep minutes) ⟨0, 0, [], []⟩
    let commits :=
      st.commits ++ (if 0 < st.batch_count then [st.batch_count] else [])
    ⟨store ++ st.newDocs, st.added, commits⟩



/-! ### Helper lemmas about the `by_min` association list -/

/-- Value stored at key `k` in the `by_min` association list. -/
def findKey (l : List (Int × AllMeas)) (k : Int) : Option AllMeas :=
  (l.find? (fun p => p.1 = k)).map Prod.snd

/-- Well-formedness of the `by_min` association list: pairwise-distinct keys,
each key being the minute bucket of its value. -/
def AssocOk (l : List (Int × AllMeas)) : Prop :=
  l.Pairwise (fun p q => p.1 ≠ q.1) ∧ ∀ p ∈ l, p.1 = bucket p.2.timestamp

instance : IsTotal AllMeas tsLe :=
  ⟨fun a b => Int.le_total a.timestamp b.timestamp⟩

instance : IsTrans AllMeas tsLe :=
  ⟨fun _ _ _ hab hbc => le_trans hab hbc⟩

/-- Timestamp order on canonical measurements. -/
def measLe (a b : Meas) : Prop := a.timestamp ≤ b.timestamp

instance : DecidableRel measLe := fun a b => Int.decLe a.timestamp b.timestamp

/-- A stdlib oracle in which every parse fails; usable wherever the stdlib is
never consulted. -/
def stdNone : Std :=
  ⟨fun _ => none, fun _ => none, fun _ => false, fun _ => none, fun _ => none⟩

/-- A stdlib oracle recording the single CPython fact
`int(float "600") = 600`; all other parses fail. -/
def std600 : Std :=
  ⟨fun _ => none, fun _ => none, fun _ => false,
   fun s => if s = "600" then some (600 : Int) else none, fun _ => none⟩

/-- A feed record with an epoch-seconds integer timestamp and an integer
glucose value. -/
def secMeas (t v : Int) : PyMeas :=
  PyMeas.dict (some (.num t)) none none (some (.num v)) none none

/-- An environment in which the three required variables are set. -/
def envAll : String → Option String := fun n =>
  if n = "LIBRELINK_EMAIL" then some "user@example.com"
  else if n = "LIBRELINK_PASSWORD" then some "pw"
  else if n = "FIREBASE_SERVICE_ACCOUNT" then some "sa"
  else none

/-- 1000 fresh measurements, one per minute. -/
def ms1000 : List Meas :=
  (List.range 1000).map (fun i => ⟨Int.ofNat i * 60000, 100, false⟩)

theorem findKey_nil (k : Int) : findKey [] k = none := rfl

theorem findKey_upsert_self (l : List (Int × AllMeas)) (k : Int) (m : AllMeas) :
    findKey (upsert l k m) k = some m := by
  induction l with
  | nil => simp [upsert, findKey]
  | cons p rest ih =>
    obtain ⟨k0, m0⟩ := p
    by_cases h : k0 = k
    · simp [upsert, h, findKey]
    · simpa [upsert, h, findKey] using ih

theorem findKey_upsert_ne (l : List (Int × AllMeas)) (k k' : Int) (m : AllMeas)
    (hne : k' ≠ k) : findKey (upsert l k m) k' = findKey l k' := by
  induction l with
  | nil => simp [upsert, findKey, Ne.symm hne]
  | cons p rest ih =>
    obtain ⟨k0, m0⟩ := p
    by_cases h : k0 = k
    · subst h
      simp [upsert, findKey, Ne.symm hne]
    · by_cases h' : k0 = k'
      · simp [upsert, h, findKey, h', hne]
      · simpa [upsert, h, findKey, h'] using ih

theorem getLast?_cons_or {α : Type} (a : α) (l : List α) :
    (a :: l).getLast? = l.getLast?.or (some a) := by
  cases l with
  | nil => simp
  | cons b t =>
    rw [List.getLast?_cons_cons]
    have hs : (b :: t).getLast?.isSome := by
      rw [List.getLast?_isSome]
      exact List.cons_ne_nil b t
    obtain ⟨c, hc⟩ := Option.isSome_iff_exists.mp hs
    simp [hc]

/-- After folding the collection loop, the value at key `k` is the last
measurement with bucket `k`, falling back to the accumulator's entry. -/
theorem findKey_foldl (ms : List AllMeas) (acc : List (Int × AllMeas))
    (k : Int) :
    findKey (ms.foldl byMinStep acc) k =
      ((ms.filter (fun m => bucket m.timestamp = k)).getLast?).or
        (findKey acc k) := by
  induction ms generalizing acc with
  | nil => simp
  | cons m rest ih =>
    rw [List.foldl_cons, ih]
    by_cases h : bucket m.timestamp = k
    · rw [byMinStep, h, findKey_upsert_self]
      have : (m :: rest).filter (fun x => bucket x.timestamp = k)
          = m :: rest.filter (fun x => bucket x.timestamp = k) := by
        simp [List.filter_cons, h]
      rw [this, getLast?_cons_or]
      cases (rest.filter (fun x => bucket x.timestamp = k)).getLast? <;> simp
    · rw [byMinStep, findKey_upsert_ne _ _ _ _ (fun hk => h hk.symm)]
      have : (m :: rest).filter (fun x => bucket x.timestamp = k)
          = rest.filter (fun x => bucket x.timestamp = k) := by
        simp [List.filter_cons, h]
      rw [this]

/-- The dict `by_min` maps each bucket to the last measurement inserted for it. -/
theorem findKey_by_min (ms : List AllMeas) (k : Int) :
    findKey (by_min ms) k =
      (ms.filter (fun m => bucket m.timestamp = k)).getLast? := by
  rw [by_min, findKey_foldl, findKey_nil]
  cases (ms.filter (fun m => bucket m.timestamp = k)).getLast? <;> simp

theorem mem_upsert {l : List (Int × AllMeas)} {k : Int} {m : AllMeas}
    {p : Int × AllMeas} (hp : p ∈ upsert l k m) : p = (k, m) ∨ p ∈ l := by
  induction l with
  | nil => simpa [upsert] using hp
  | cons q rest ih =>
    obtain ⟨k0, m0⟩ := q
    by_cases h : k0 = k
    · rw [upsert, if_pos h] at hp
      rcases List.mem_cons.mp hp with h1 | h1
      · exact Or.inl h1
      · exact Or.inr (List.mem_cons_of_mem _ h1)
    · rw [upsert, if_neg h] at hp
      rcases List.mem_cons.mp hp with h1 | h1
      · exact Or.inr (h1 ▸ List.mem_cons_self _ _)
      · rcases ih h1 with h2 | h2
        · exact Or.inl h2
        · exact Or.inr (List.mem_cons_of_mem _ h2)

theorem pairwise_upsert {l : List (Int × AllMeas)} (k : Int) (m : AllMeas)
    (hl : l.Pairwise (fun p q => p.1 ≠ q.1)) :
    (upsert l k m).Pairwise (fun p q => p.1 ≠ q.1) := by
  induction l with
  | nil => simp [upsert]
  | cons q rest ih =>
    obtain ⟨k0, m0⟩ := q
    rcases List.pairwise_cons.mp hl with ⟨hhd, htl⟩
    by_cases h : k0 = k
    · rw [upsert, if_pos h]
      refine List.pairwise_cons.mpr ⟨?_, htl⟩
      intro q hq
      exact h ▸ hhd q hq
    · rw [upsert, if_neg h]
      refine List.pairwise_cons.mpr ⟨?_, ih htl⟩
      intro q hq
      rcases mem_upsert hq with h1 | h1
      · rw [h1]
        exact h
      · exact hhd q h1

theorem assocOk_by_min (ms : List AllMeas) : AssocOk (by_min ms) := by
  rw [by_min]
  have main : ∀ (l : List AllMeas) (acc : List (Int × AllMeas)),
      AssocOk acc → AssocOk (l.foldl byMinStep acc) := by
    intro l
    induction l with
    | nil => intro acc h; exact h
    | cons m rest ih =>
      intro acc h
      rw [List.foldl_cons]
      refine ih _ ⟨pairwise_upsert _ _ h.1, ?_⟩
      intro p hp
      rcases mem_upsert hp with h1 | h1
      · rw [h1]
      · exact h.2 p h1
  exact main ms [] ⟨List.Pairwise.nil, by intro p hp; cases hp⟩

/-- In a well-formed association list, the values with bucket `k` are exactly
the (at most one) entry found at key `k`. -/
theorem filter_values_eq_findKey {l : List (Int × AllMeas)} (hok : AssocOk l)
    (k : Int) :
    (l.map Prod.snd).filter (fun m => bucket m.timestamp = k)
      = (findKey l k).toList := by
  induction l with
  | nil => simp [findKey]
  | cons p rest ih =>
    obtain ⟨k0, m0⟩ := p
    rcases hok with ⟨hpw, hco⟩
    rcases List.pairwise_cons.mp hpw with ⟨hhd, htl⟩
    have hk0 : k0 = bucket m0.timestamp := hco (k0, m0) (List.mem_cons_self _ _)
    by_cases h : k0 = k
    · have hres : rest.Forall (fun q => ¬ (bucket q.2.timestamp = k)) := by
        rw [List.forall_iff_forall_mem]
        intro q hq
        have := hco q (List.mem_cons_of_mem _ hq)
        rw [← this]
        intro hqk
        exact hhd q hq (h ▸ hqk.symm) |>.elim
      have hfilter : (rest.map Prod.snd).filter
          (fun m => bucket m.timestamp = k) = [] := by
        rw [List.filter_eq_nil_iff]
        intro a ha
        rcases List.mem_map.mp ha with ⟨q, hq, rfl⟩
        rw [List.forall_iff_forall_mem] at hres
        simpa using hres q hq
      simp [findKey, List.filter_cons, hk0 ▸ h, hfilter, h]
    · have hm0 : ¬ (bucket m0.timestamp = k) := fun hc => h (hk0 ▸ hc)
      have := ih ⟨htl, fun q hq => hco q (List.mem_cons_of_mem _ hq)⟩
      simp [findKey, List.filter_cons, hm0, h] at this ⊢
      exact this

/-- Filtering commutes with a permutation when at most one element matches. -/
theorem filter_perm_of_le_one {α : Type} (p : α → Bool) {l l' : List α}
    (h : l.Perm l') (hlen : (l.filter p).length ≤ 1) :
    l.filter p = l'.filter p := by
  have hp := h.filter p
  match hfl : l.filter p with
  | [] =>
    rw [hfl] at hp
    exact ((List.perm_nil.mp hp.symm)).symm
  | [a] =>
    rw [hfl] at hp
    exact (List.perm_singleton.mp hp.symm).symm
  | a :: b :: t =>
    rw [hfl] at hlen
    simp at hlen

/-- The deduplicated output restricted to one bucket is exactly the last
record of the merged input falling in that bucket. -/
theorem dedup_filter (ms : List AllMeas) (k : Int) :
    (dedup ms).filter (fun r => bucket r.timestamp = k)
      = ((ms.filter (fun m => bucket m.timestamp = k)).getLast?.map
          dropSource).toList := by
  rw [dedup]
  rw [List.filter_map]
  have hcomp : ((fun (r : Meas) => decide (bucket r.timestamp = k)) ∘ dropSource)
      = (fun (m : AllMeas) => decide (bucket m.timestamp = k)) := rfl
  rw [hcomp]
  have hV := filter_values_eq_findKey (assocOk_by_min ms) k
  have hlen : (((by_min ms).map Prod.snd).filter
      (fun m => bucket m.timestamp = k)).length ≤ 1 := by
    rw [hV]
    cases findKey (by_min ms) k <;> simp
  have hperm : ((by_min ms).map Prod.snd).Perm
      (List.insertionSort tsLe ((by_min ms).map Prod.snd)) :=
    (List.perm_insertionSort tsLe _).symm
  rw [← filter_perm_of_le_one _ hperm hlen, hV, findKey_by_min]
  cases (ms.filter (fun m => bucket m.timestamp = k)).getLast? <;> simp

/-- The deduplicated output is sorted by timestamp and hits each minute
bucket at most once. -/
theorem dedup_sorted_and_buckets (ms : List AllMeas) :
    List.Sorted (fun a b : Meas => a.timestamp ≤ b.timestamp) (dedup ms)
    ∧ List.Pairwise (fun a b : Meas => bucket a.timestamp ≠ bucket b.timestamp)
        (dedup ms) := by
  constructor
  · rw [dedup]
    rw [List.Sorted, List.pairwise_map]
    exact List.sorted_insertionSort tsLe _
  · rw [dedup, List.pairwise_map]
    have hmain : List.Pairwise
        (fun a b : AllMeas => bucket a.timestamp ≠ bucket b.timestamp)
        ((by_min ms).map Prod.snd) := by
      obtain ⟨hpw, hco⟩ := assocOk_by_min ms
      rw [List.pairwise_map]
      refine List.Pairwise.imp_of_mem ?_ hpw
      intro p q hp hq hne
      rw [← hco p hp, ← hco q hq]
      exact hne
    have hsym : ∀ {x y : AllMeas},
        bucket x.timestamp ≠ bucket y.timestamp →
        bucket y.timestamp ≠ bucket x.timestamp := fun h => h.symm
    exact ((List.perm_insertionSort tsLe _).pairwise_iff hsym).mpr hmain

/-- Unfolding of the writer on a non-empty input. -/
theorem write_cons (store : List StoredDoc) (m0 : Meas) (rest : List Meas) :
    write_to_firebase store (m0 :: rest) =
      ⟨store ++ ((m0 :: rest).foldl
          (writeStep (existingMinutes store m0.timestamp
            (((m0 :: rest).getLast (List.cons_ne_nil m0 rest)).timestamp)))
          ⟨0, 0, [], []⟩).newDocs,
        ((m0 :: rest).foldl
          (writeStep (existingMinutes store m0.timestamp
            (((m0 :: rest).getLast (List.cons_ne_nil m0 rest)).timestamp)))
          ⟨0, 0, [], []⟩).added,
        ((m0 :: rest).foldl
          (writeStep (existingMinutes store m0.timestamp
            (((m0 :: rest).getLast (List.cons_ne_nil m0 rest)).timestamp)))
          ⟨0, 0, [], []⟩).commits ++
          (if 0 < ((m0 :: rest).foldl
              (writeStep (existingMinutes store m0.timestamp
                (((m0 :: rest).getLast (List.cons_ne_nil m0 rest)).timestamp)))
              ⟨0, 0, [], []⟩).batch_count
            then [((m0 :: rest).foldl
              (writeStep (existingMinutes store m0.timestamp
                (((m0 :: rest).getLast (List.cons_ne_nil m0 rest)).timestamp)))
              ⟨0, 0, [], []⟩).batch_count]
            else [])⟩ := rfl

/-- The write loop keeps `batch_count` equal to `added % 450` and has issued
one full commit of 450 per 450 records added. -/
theorem foldl_writeStep_inv (minutes : List Int) (l : List Meas)
    (st : WriteState) (h1 : st.batch_count = st.added % 450)
    (h2 : st.commits = List.replicate (st.added / 450) 450) :
    (l.foldl (writeStep minutes) st).batch_count
        = (l.foldl (writeStep minutes) st).added % 450
    ∧ (l.foldl (writeStep minutes) st).commits
        = List.replicate ((l.foldl (writeStep minutes) st).added / 450) 450 := by
  induction l generalizing st with
  | nil => exact ⟨h1, h2⟩
  | cons m rest ih =>
    rw [List.foldl_cons]
    by_cases hmem : bucket m.timestamp ∈ minutes
    · have hst : writeStep minutes st m = st := by
        unfold writeStep
        rw [if_pos hmem]
      rw [hst]
      exact ih st h1 h2
    · by_cases hfull : 450 ≤ st.batch_count + 1
      · have hst : writeStep minutes st m =
            ⟨st.added + 1, 0, st.commits ++ [st.batch_count + 1],
              st.newDocs ++ [⟨some m.timestamp⟩]⟩ := by
          unfold writeStep
          rw [if_neg hmem, if_pos hfull]
        rw [hst]
        refine ih _ (by simp; omega) ?_
        have hbc : st.batch_count + 1 = 450 := by omega
        have hdiv : (st.added + 1) / 450 = st.added / 450 + 1 := by omega
        simp only [hdiv, hbc, List.replicate_succ']
        rw [← h2]
      · have hst : writeStep minutes st m =
            ⟨st.added + 1, st.batch_count + 1, st.commits,
              st.newDocs ++ [⟨some m.timestamp⟩]⟩ := by
          unfold writeStep
          rw [if_neg hmem, if_neg hfull]
        rw [hst]
        refine ih _ (by simp; omega) ?_
        have hdiv : (st.added + 1) / 450 = st.added / 450 := by omega
        simp only [hdiv]
        exact h2

/-- The writer's commit sizes are determined by its added count: one commit
of 450 per full group, plus the non-empty remainder. -/
theorem write_commits_shape (store : List StoredDoc) (ms : List Meas) :
    (write_to_firebase store ms).commits
      = List.replicate ((write_to_firebase store ms).added / 450) 450
        ++ (if (write_to_firebase store ms).added % 450 = 0 then []
            else [(write_to_firebase store ms).added % 450]) := by
  match ms with
  | [] => simp [write_to_firebase]
  | m0 :: rest =>
    rw [write_cons]
    have hinv := foldl_writeStep_inv
      (existingMinutes store m0.timestamp
        (((m0 :: rest).getLast (List.cons_ne_nil m0 rest)).timestamp))
      (m0 :: rest) ⟨0, 0, [], []⟩ rfl rfl
    rcases hinv with ⟨h1, h2⟩
    rw [h2, h1]
    by_cases hz :
        ((m0 :: rest).foldl
          (writeStep (existingMinutes store m0.timestamp
            (((m0 :: rest).getLast (List.cons_ne_nil m0 rest)).timestamp)))
          ⟨0, 0, [], []⟩).added % 450 = 0
    · rw [hz]
      simp
    · rw [if_neg hz, if_pos (Nat.pos_of_ne_zero hz)]

theorem write_commits_count (store : List StoredDoc) (ms : List Meas) :
    (write_to_firebase store ms).commits.length
      = ((write_to_firebase store ms).added + 449) / 450 := by
  rw [write_commits_shape]
  by_cases hz : (write_to_firebase store ms).added % 450 = 0
  · rw [hz]
    simp only [if_pos rfl]
    simp
    omega
  · rw [if_neg hz]
    simp
    omega

/-- When no bucket is already present, every record is written. -/
theorem foldl_writeStep_noskip (minutes : List Int) (l : List Meas)
    (st : WriteState) (h : ∀ m ∈ l, bucket m.timestamp ∉ minutes) :
    (l.foldl (writeStep minutes) st).added = st.added + l.length := by
  induction l generalizing st with
  | nil => simp
  | cons m rest ih =>
    rw [List.foldl_cons]
    have hm := h m (List.mem_cons_self _ _)
    have hrest : ∀ x ∈ rest, bucket x.timestamp ∉ minutes :=
      fun x hx => h x (List.mem_cons_of_mem _ hx)
    by_cases hfull : 450 ≤ st.batch_count + 1
    · have hst : writeStep minutes st m =
          ⟨st.added + 1, 0, st.commits ++ [st.batch_count + 1],
            st.newDocs ++ [⟨some m.timestamp⟩]⟩ := by
        unfold writeStep
        rw [if_neg hm, if_pos hfull]
      rw [hst, ih _ hrest]
      simp
      omega
    · have hst : writeStep minutes st m =
          ⟨st.added + 1, st.batch_count + 1, st.commits,
            st.newDocs ++ [⟨some m.timestamp⟩]⟩ := by
        unfold writeStep
        rw [if_neg hm, if_neg hfull]
      rw [hst, ih _ hrest]
      simp
      omega

/-- When every bucket is already present, the loop is a no-op. -/
theorem foldl_writeStep_skip_all (minutes : List Int) (l : List Meas)
    (st : WriteState) (h : ∀ m ∈ l, bucket m.timestamp ∈ minutes) :
    l.foldl (writeStep minutes) st = st := by
  induction l generalizing st with
  | nil => rfl
  | cons m rest ih =>
    rw [List.foldl_cons]
    have hst : writeStep minutes st m = st := by
      unfold writeStep
      rw [if_pos (h m (List.mem_cons_self _ _))]
    rw [hst]
    exact ih _ (fun x hx => h x (List.mem_cons_of_mem _ hx))

/-- Committed documents are never removed by later iterations. -/
theorem mem_newDocs_foldl (minutes : List Int) (l : List Meas)
    (st : WriteState) (x : StoredDoc) (hx : x ∈ st.newDocs) :
    x ∈ (l.foldl (writeStep minutes) st).newDocs := by
  induction l generalizing st with
  | nil => exact hx
  | cons m rest ih =>
    rw [List.foldl_cons]
    refine ih _ ?_
    unfold writeStep
    by_cases hmem : bucket m.timestamp ∈ minutes
    · rw [if_pos hmem]
      exact hx
    · rw [if_neg hmem]
      by_cases hfull : 450 ≤ st.batch_count + 1
      · rw [if_pos hfull]
        exact List.mem_append_left _ hx
      · rw [if_neg hfull]
        exact List.mem_append_left _ hx

/-- A record whose bucket is absent from the existing set gets its document
committed by the loop. -/
theorem staged_mem_newDocs (minutes : List Int) (l : List Meas)
    (st : WriteState) (m : Meas) (hm : m ∈ l)
    (hnot : bucket m.timestamp ∉ minutes) :
    (⟨some m.timestamp⟩ : StoredDoc) ∈ (l.foldl (writeStep minutes) st).newDocs := by
  induction l generalizing st with
  | nil => cases hm
  | cons a rest ih =>
    rw [List.foldl_cons]
    rcases List.mem_cons.mp hm with rfl | hm'
    · refine mem_newDocs_foldl _ _ _ _ ?_
      unfold writeStep
      rw [if_neg hnot]
      by_cases hfull : 450 ≤ st.batch_count + 1
      · rw [if_pos hfull]
        exact List.mem_append_right _ (List.mem_singleton_self _)
      · rw [if_neg hfull]
        exact List.mem_append_right _ (List.mem_singleton_self _)
    · exact ih _ hm'

theorem existingMinutes_append (s d : List StoredDoc) (a b : Int) :
    existingMinutes (s ++ d) a b
      = existingMinutes s a b ++ existingMinutes d a b := by
  simp [existingMinutes, List.filter_append, List.filterMap_append]

theorem mem_existingMinutes {docs : List StoredDoc} {t a b : Int}
    (hd : (⟨some t⟩ : StoredDoc) ∈ docs) (h1 : a ≤ t) (h2 : t ≤ b) :
    bucket t ∈ existingMinutes docs a b := by
  refine List.mem_map.mpr ⟨t, ?_, rfl⟩
  refine List.mem_filterMap.mpr ⟨⟨some t⟩, ?_, rfl⟩
  refine List.mem_filter.mpr ⟨hd, ?_⟩
  simp [h1, h2]

theorem sorted_le_getLast :
    ∀ {l : List Meas}, List.Sorted measLe l → ∀ (hne : l ≠ []),
      ∀ m ∈ l, m.timestamp ≤ (l.getLast hne).timestamp := by
  intro l
  induction l with
  | nil => intro _ hne; exact absurd rfl hne
  | cons a rest ih =>
    intro hs hne m hm
    cases rest with
    | nil =>
      rcases List.mem_cons.mp hm with rfl | h'
      · simp [List.getLast]
      · cases h'
    | cons b t =>
      rw [List.getLast_cons (List.cons_ne_nil b t)]
      rcases List.mem_cons.mp hm with rfl | h'
      · exact List.rel_of_sorted_cons hs _ (List.getLast_mem _)
      · exact ih hs.of_cons (List.cons_ne_nil b t) m h'

theorem sorted_head_le {m0 : Meas} {rest : List Meas}
    (hs : List.Sorted measLe (m0 :: rest)) :
    ∀ m ∈ m0 :: rest, m0.timestamp ≤ m.timestamp := by
  intro m hm
  rcases List.mem_cons.mp hm with rfl | h'
  · exact le_refl _
  · exact List.rel_of_sorted_cons hs _ h'

/-- After one writer run over a sorted record set, every record's minute
bucket exists in the resulting store restricted to the record range. -/
theorem write_covers (store : List StoredDoc) (m0 : Meas) (rest : List Meas)
    (hs : List.Sorted measLe (m0 :: rest)) :
    ∀ m ∈ m0 :: rest,
      bucket m.timestamp ∈
        existingMinutes (write_to_firebase store (m0 :: rest)).store
          m0.timestamp
          (((m0 :: rest).getLast (List.cons_ne_nil m0 rest)).timestamp) := by
  intro m hm
  rw [write_cons]
  rw [existingMinutes_append]
  by_cases hmem : bucket m.timestamp ∈
      existingMinutes store m0.timestamp
        (((m0 :: rest).getLast (List.cons_ne_nil m0 rest)).timestamp)
  · exact List.mem_append_left _ hmem
  · refine List.mem_append_right _ ?_
    refine mem_existingMinutes (staged_mem_newDocs _ _ _ _ hm hmem) ?_ ?_
    · exact sorted_head_le hs m hm
    · exact sorted_le_getLast hs (List.cons_ne_nil m0 rest) m hm

/-- Idempotence core: a second run over the same sorted record set against
the store the first run produced writes nothing. -/
theorem write_twice_added_zero (store : List StoredDoc) (ms : List Meas)
    (hs : List.Sorted measLe ms) :
    (write_to_firebase (write_to_firebase store ms).store ms).added = 0 := by
  match ms with
  | [] => rfl
  | m0 :: rest =>
    rw [write_cons (write_to_firebase store (m0 :: rest)).store m0 rest]
    have hcover := write_covers store m0 rest hs
    rw [foldl_writeStep_skip_all _ _ _ hcover]

/-- With an empty store nothing is skipped: the writer writes every record. -/
theorem write_added_empty (ms : List Meas) :
    (write_to_firebase [] ms).added = ms.length := by
  match ms with
  | [] => rfl
  | m0 :: rest =>
    rw [write_cons]
    have hmin : existingMinutes [] m0.timestamp
        (((m0 :: rest).getLast (List.cons_ne_nil m0 rest)).timestamp) = [] := rfl
    rw [hmin, foldl_writeStep_noskip _ _ _ (fun m _ => List.not_mem_nil _)]
    simp

theorem ms1000_length : ms1000.length = 1000 := by
  simp only [ms1000, List.length_map, List.length_range]

/-- C1: in the deduplicated output there is exactly one record per occupied
minute bucket, namely the record inserted last in feed order (so a logbook
record overrides a graph record for the same minute); and on graph feed
`[{00:00,120},{00:15,130}]` with logbook feed `[{00:15,135},{00:30,140}]`
(epoch seconds of 2024-01-01) the output is
`[{00:00,120},{00:15,135},{00:30,140}]`, for any stdlib behaviour. -/
theorem claim_C1 :
    (∀ (ms : List AllMeas) (k : Int),
      (dedup ms).filter (fun r => bucket r.timestamp = k)
        = ((ms.filter (fun m => bucket m.timestamp = k)).getLast?.map
            dropSource).toList)
    ∧ (∀ std : Std,
      fetchCore std "Asia/Tokyo"
          [secMeas 1704067200 120, secMeas 1704068100 130]
          [secMeas 1704068100 135, secMeas 1704069000 140]
        = .ok [⟨1704067200000, 120, false⟩, ⟨1704068100000, 135, false⟩,
               ⟨1704069000000, 140, false⟩]) :=
  ⟨dedup_filter, fun _ => rfl⟩

/-- C7: the deduplicator's output is non-decreasing in `timestamp_ms` and its
minute buckets are pairwise distinct. -/
theorem claim_C7 (ms : List AllMeas) :
    List.Sorted (fun a b : Meas => a.timestamp ≤ b.timestamp) (dedup ms)
    ∧ List.Pairwise
        (fun a b : Meas => bucket a.timestamp ≠ bucket b.timestamp)
        (dedup ms) :=
  dedup_sorted_and_buckets ms

/-- C5: the store writer is idempotent — a second run over the same
(timestamp-sorted, as every fetched record set is) record set against the
store state the first run left behind reports zero records written. -/
theorem claim_C5 (store : List StoredDoc) (ms : List Meas)
    (hs : List.Sorted measLe ms) :
    (write_to_firebase (write_to_firebase store ms).store ms).added = 0 :=
  write_twice_added_zero store ms hs

theorem claim_C5_witness :
    List.Sorted measLe [(⟨0, 100, false⟩ : Meas), ⟨60000, 110, false⟩]
    ∧ (write_to_firebase
        (write_to_firebase [] [(⟨0, 100, false⟩ : Meas), ⟨60000, 110, false⟩]).store
        [(⟨0, 100, false⟩ : Meas), ⟨60000, 110, false⟩]).added = 0 :=
  ⟨by decide, claim_C5 [] [⟨0, 100, false⟩, ⟨60000, 110, false⟩] (by decide)⟩

/-- C6: the writer commits the `added` new records in groups of at most 450
with a trailing flush of any partial group — `ceil(added / 450)` commits of
sizes `450, …, 450, added mod 450` — and for 1000 fresh records issues the
three commits `450, 450, 100`. -/
theorem claim_C6 :
    (∀ (store : List StoredDoc) (ms : List Meas),
      (write_to_firebase store ms).commits
        = List.replicate ((write_to_firebase store ms).added / 450) 450
          ++ (if (write_to_firebase store ms).added % 450 = 0 then []
              else [(write_to_firebase store ms).added % 450])
      ∧ (write_to_firebase store ms).commits.length
          = ((write_to_firebase store ms).added + 449) / 450)
    ∧ (write_to_firebase [] ms1000).added = 1000
    ∧ (write_to_firebase [] ms1000).commits = [450, 450, 100] := by
  have h1000 : (write_to_firebase [] ms1000).added = 1000 := by
    rw [write_added_empty, ms1000_length]
  refine ⟨fun store ms => ⟨write_commits_shape store ms,
    write_commits_count store ms⟩, h1000, ?_⟩
  rw [write_commits_shape, h1000]
  norm_num
  rfl

/-- C2 counterexample: the claim says any value whose numeric form is ≥ 500 —
also as a numeric string — normalizes to `(500, true)`; but the numeric
string `"600"` (with `int(float "600") = 600`, as in CPython) normalizes to
`(600, false)`: the string path returns before the clamp. -/
theorem claim_C2_counterexample :
    _norm_value std600
        (PyMeas.dict none none none (some (.str "600")) none none)
      = (600, false)
    ∧ ((600 : Int), false) ≠ ((500 : Int), true) :=
  ⟨rfl, by decide⟩

/-- C2 (amended): the sentinel `"HI"` (any case, surrounding whitespace
ignored) normalizes to exactly `(500, true)`, and a numeric (non-string)
value ≥ 500 is clamped to exactly `(500, true)`; but a numeric string is
returned as `int(float s)` unclamped, with `isHi` taken from the record's
flags. -/
theorem claim_C2_amended :
    (∀ (std : Std) (m : PyMeas) (s : String),
      valueField m = some (.str s) → pyUpper (pyStrip s) = "HI" →
      _norm_value std m = (500, true))
    ∧ (∀ (std : Std) (m : PyMeas) (n : Int),
      valueField m = some (.num n) → 500 ≤ n →
      _norm_value std m = (500, true))
    ∧ (∀ (std : Std) (m : PyMeas) (s : String) (n : Int),
      valueField m = some (.str s) → pyUpper (pyStrip s) ≠ "HI" →
      std.strToNum s = some n →
      _norm_value std m = (n, hiFlags m)) := by
  refine ⟨?_, ?_, ?_⟩
  · intro std m s hv hhi
    unfold _norm_value
    rw [hv]
    simp only [hhi, if_pos]
  · intro std m n hv hn
    unfold _norm_value
    rw [hv]
    simp only [if_pos hn]
  · intro std m s n hv hhi hn
    unfold _norm_value
    rw [hv]
    simp only [if_neg hhi, hn]

theorem claim_C2_amended_witness :
    _norm_value stdNone
        (PyMeas.dict none none none (some (.str " hi ")) none none)
      = (500, true)
    ∧ _norm_value stdNone
        (PyMeas.dict none none none (some (.num 612)) none none)
      = (500, true)
    ∧ _norm_value std600
        (PyMeas.dict none none none (some (.str "600")) none none)
      = (600, false) :=
  ⟨claim_C2_amended.1 stdNone _ " hi " rfl (by decide),
   claim_C2_amended.2.1 stdNone _ 612 rfl (by decide),
   claim_C2_amended.2.2 std600 _ "600" 600 rfl (by decide) rfl⟩

/-- C10: value normalization is total — an absent/None value field, and a
string value that is neither `"HI"` nor parseable as a number, both
normalize to value 0 with `isHi` taken from the record's isHi/is_hi flags
(no exception, no dropped record). -/
theorem claim_C10 :
    (∀ (std : Std) (m : PyMeas),
      valueField m = none → _norm_value std m = (0, hiFlags m))
    ∧ (∀ (std : Std) (m : PyMeas) (s : String),
      valueField m = some (.str s) → pyUpper (pyStrip s) ≠ "HI" →
      std.strToNum s = none → _norm_value std m = (0, hiFlags m)) := by
  constructor
  · intro std m hv
    unfold _norm_value
    rw [hv]
  · intro std m s hv hhi hn
    unfold _norm_value
    rw [hv]
    simp only [if_neg hhi, hn]

theorem claim_C10_witness :
    _norm_value stdNone
        (PyMeas.dict none none none none (some (.num 1)) none)
      = (0, true)
    ∧ _norm_value stdNone
        (PyMeas.dict none none none (some (.str "abc")) none none)
      = (0, false) :=
  ⟨claim_C10.1 stdNone _ rfl,
   claim_C10.2 stdNone _ "abc" rfl (by decide) rfl⟩

/-- C3 counterexample: a record whose timestamp field holds an unsupported
object is not dropped — `_dt_to_epoch_ms` raises `TypeError` and the whole
run fails, even though authentication succeeded and a patient resolved. -/
theorem claim_C3_counterexample :
    fetch_glucose_data envAll stdNone (fun _ => .ok ()) [⟨some "p1"⟩]
        [PyMeas.dict (some .obj) none none none none none] []
      = .error (.tsError "Unsupported timestamp type") := rfl

/-- C3 (amended): only a record whose timestamp lookup yields `None` is
dropped silently; a timestamp that is present but fails conversion — an
unsupported type, or a string that neither ISO-parses nor float-parses —
raises, and the exception aborts the collection loop (and hence the run). -/
theorem claim_C3_amended :
    (∀ (std : Std) (tz src : String) (m : PyMeas) (rest : List PyMeas),
      _get_timestamp m = none →
      normFeed std tz src (m :: rest) = normFeed std tz src rest)
    ∧ (∀ (std : Std) (tz src : String) (m : PyMeas) (rest : List PyMeas)
        (ts_raw : PyVal) (e : String),
      _get_timestamp m = some ts_raw →
      _dt_to_epoch_ms std ts_raw tz = .error e →
      normFeed std tz src (m :: rest) = .error e)
    ∧ (∀ (std : Std) (tz : String),
      _dt_to_epoch_ms std .obj tz = .error "Unsupported timestamp type")
    ∧ (∀ (std : Std) (tz s : String),
      std.fromiso (pyReplaceZ s) = none → std.floatMs s = none →
      _dt_to_epoch_ms std (.str s) tz
        = .error ("could not convert string to timestamp: " ++ s)) := by
  refine ⟨?_, ?_, fun _ _ => rfl, ?_⟩
  · intro std tz src m rest hts
    conv_lhs => rw [normFeed]
    rw [hts]
  · intro std tz src m rest ts_raw e hts herr
    unfold normFeed
    rw [hts]
    simp only [herr]
  · intro std tz s hiso hfloat
    unfold _dt_to_epoch_ms
    simp only [hiso, hfloat]

theorem claim_C3_amended_witness :
    normFeed stdNone "Asia/Tokyo" "graph"
        [PyMeas.dict none none none (some (.num 120)) none none]
      = normFeed stdNone "Asia/Tokyo" "graph" []
    ∧ normFeed stdNone "Asia/Tokyo" "graph"
        [PyMeas.dict (some .obj) none none none none none]
      = .error "Unsupported timestamp type"
    ∧ _dt_to_epoch_ms stdNone (.str "not-a-date") "Asia/Tokyo"
      = .error ("could not convert string to timestamp: " ++ "not-a-date") :=
  ⟨claim_C3_amended.1 stdNone "Asia/Tokyo" "graph" _ [] rfl,
   claim_C3_amended.2.1 stdNone "Asia/Tokyo" "graph" _ [] .obj _ rfl rfl,
   claim_C3_amended.2.2.2 stdNone "Asia/Tokyo" "not-a-date" rfl rfl⟩

/-- C4 counterexample: the claim says the fetcher retries authentication
once against the corrected endpoint after a region-mismatch error; but with
an authentication oracle that fails the first call with a region mismatch
and would succeed on any retry, the run still fails — the fetcher makes no
second attempt. -/
theorem claim_C4_counterexample :
    fetch_glucose_data envAll stdNone
        (fun k => if k = 0 then .error .regionMismatch else .ok ())
        [⟨some "p1"⟩] [] []
      = .error (.authFailed .regionMismatch) := rfl

/-- C4 (amended): the fetcher itself performs no authentication retry — it
issues a single `authenticate()` call, and any failure of that call
(region mismatch included) is immediately fatal, regardless of what later
attempts would have returned. -/
theorem claim_C4_amended :
    ∀ (env : String → Option String) (std : Std)
      (auth : Nat → Except AuthError Unit) (e : AuthError)
      (patients : List Patient) (graph logbook : List PyMeas)
      (em pw : String),
      get_env env "LIBRELINK_EMAIL" = .ok em →
      get_env env "LIBRELINK_PASSWORD" = .ok pw →
      auth 0 = .error e →
      fetch_glucose_data env std auth patients graph logbook
        = .error (.authFailed e) := by
  intro env std auth e patients graph logbook em pw hem hpw hauth
  unfold fetch_glucose_data
  rw [hem, hpw, hauth]

theorem claim_C4_amended_witness :
    get_env envAll "LIBRELINK_EMAIL" = .ok "user@example.com"
    ∧ get_env envAll "LIBRELINK_PASSWORD" = .ok "pw"
    ∧ (fun k => if k = 0 then Except.error AuthError.regionMismatch
        else .ok ()) 0 = .error .regionMismatch
    ∧ fetch_glucose_data envAll stdNone
        (fun k => if k = 0 then .error .regionMismatch else .ok ())
        [⟨some "p1"⟩] [] []
      = .error (.authFailed .regionMismatch) :=
  ⟨rfl, rfl, rfl,
   claim_C4_amended envAll stdNone _ .regionMismatch [⟨some "p1"⟩] [] []
     "user@example.com" "pw" rfl rfl rfl⟩

/-- C8 counterexample: the claim says timestamp extraction tries
`timestamp`, `time`, `date` for object-shaped records too; but an object
with no `timestamp` attribute and a `time` attribute set yields `None` —
the object branch never consults `time`. -/
theorem claim_C8_counterexample :
    _get_timestamp (PyMeas.obj none (some (.num 1704068100)) none none none none)
      = none
    ∧ (none : Option PyVal) ≠ some (.num 1704068100) :=
  ⟨rfl, by simp⟩

/-- C8 (amended): for dict-shaped records the extraction chains
`timestamp or time or date` — the first truthy value wins, otherwise the
`date` entry is returned as-is; for object-shaped records only the
`timestamp` attribute is consulted (its value is returned even when falsy,
and `time` / `date` are ignored). -/
theorem claim_C8_amended :
    (∀ (t ti d v h1 h2 : Option PyVal),
      _get_timestamp (PyMeas.dict t ti d v h1 h2)
        = if pyTruthyO t then t else if pyTruthyO ti then ti else d)
    ∧ (∀ (t ti d v h1 h2 : Option PyVal),
      _get_timestamp (PyMeas.obj t ti d v h1 h2) = t) :=
  ⟨fun _ _ _ _ _ _ => rfl, fun _ _ _ _ _ _ => rfl⟩

/-- C9: a required environment variable that is absent or blank (empty
after stripping) makes `get_env` terminate with exit status 1 and a message
containing the variable's name; a present, non-blank variable yields its
stripped value with no termination. -/
theorem claim_C9 (env : String → Option String) (name : String) :
    (pyStrip ((env name).getD "") = "" →
      ∃ code msg, get_env env name = .error (code, msg) ∧ code ≠ 0
        ∧ name.data <:+: msg.data)
    ∧ (pyStrip ((env name).getD "") ≠ "" →
      get_env env name = .ok (pyStrip ((env name).getD ""))) := by
  constructor
  · intro hblank
    refine ⟨1, "ERROR: 環境変数 " ++ name ++ " が設定されていません",
      ?_, one_ne_zero, ?_⟩
    · unfold get_env
      rw [if_pos hblank]
    · exact ⟨"ERROR: 環境変数 ".data, " が設定されていません".data,
        by simp [String.data_append]⟩
  · intro hval
    unfold get_env
    rw [if_neg hval]

theorem claim_C9_witness :
    (∃ code msg,
      get_env (fun _ => none) "LIBRELINK_EMAIL" = .error (code, msg)
      ∧ code ≠ 0 ∧ "LIBRELINK_EMAIL".data <:+: msg.data)
    ∧ get_env envAll "LIBRELINK_EMAIL" = .ok "user@example.com" := by
  constructor
  · exact (claim_C9 (fun _ => none) "LIBRELINK_EMAIL").1 rfl
  · rw [(claim_C9 envAll "LIBRELINK_EMAIL").2 (by decide)]
    rfl

end FetchGlucose
